import Mathlib

/-!
Verification of the line-item resolution and fuzzy file-matching engine of the
Shopify ⇄ SimplyPrint synchronisation server (`src/server/src/index.ts` and
`src/server/src/migrate-mappings.ts`), shallowly embedded in Lean.

External collaborators (the SimplyPrint HTTP API, the Prisma-backed store) are
modelled as explicit parameters: the mapping table as a `List Mapping`, the
catalog search as a function `String → List SPFile`, queue submission as a
boolean outcome oracle, and the wall clock as an explicit `Nat` of
milliseconds.  JavaScript strings are modelled as Lean `String`
(`List Char`), and the JavaScript built-ins the code relies on
(`String.prototype.normalize("NFD")`, `toLowerCase`, `trim`, `split`,
`includes`, regexp replacement, `Set`-based deduplication, stable
`Array.prototype.sort`) are translated character-wise below; the NFD
decomposition table and `toLowerCase` are restricted to the Latin range the
application manipulates (both are the identity on the ASCII output alphabet of
the normalizer, which is all the idempotence arguments need).
-/

namespace SimplyprintSync

/-! ### Character-level helpers for the JavaScript string built-ins -/

/-- JavaScript whitespace (the forms relevant here): space, tab, LF, CR. -/
def isWhitespaceChar (c : Char) : Bool :=
  c.toNat == 32 || c.toNat == 9 || c.toNat == 10 || c.toNat == 13

/-- Characters matched by the regexp class `[a-z0-9]` used in `normalizeText`. -/
def isAlnumLower (c : Char) : Bool :=
  (97 ≤ c.toNat && c.toNat ≤ 122) || (48 ≤ c.toNat && c.toNat ≤ 57)

/-- Combining diacritical marks `̀-ͯ` stripped by `normalizeText`. -/
def isCombiningMark (c : Char) : Bool :=
  0x300 ≤ c.toNat && c.toNat ≤ 0x36F

/-- `String.prototype.toLowerCase`, character-wise, on the ASCII range. -/
def jsToLowerChar (c : Char) : Char :=
  if 65 ≤ c.toNat && c.toNat ≤ 90 then Char.ofNat (c.toNat + 32) else c

/-- Unicode NFD decomposition, character-wise, for the precomposed Latin-1
letters; the identity on ASCII (true of real NFD) and on anything not in the
table. -/
def nfdChar (c : Char) : List Char :=
  if c.toNat < 0x80 then [c]
  else if c = 'à' then ['a', Char.ofNat 0x300]
  else if c = 'á' then ['a', Char.ofNat 0x301]
  else if c = 'â' then ['a', Char.ofNat 0x302]
  else if c = 'ã' then ['a', Char.ofNat 0x303]
  else if c = 'ä' then ['a', Char.ofNat 0x308]
  else if c = 'å' then ['a', Char.ofNat 0x30A]
  else if c = 'ç' then ['c', Char.ofNat 0x327]
  else if c = 'è' then ['e', Char.ofNat 0x300]
  else if c = 'é' then ['e', Char.ofNat 0x301]
  else if c = 'ê' then ['e', Char.ofNat 0x302]
  else if c = 'ë' then ['e', Char.ofNat 0x308]
  else if c = 'ì' then ['i', Char.ofNat 0x300]
  else if c = 'í' then ['i', Char.ofNat 0x301]
  else if c = 'î' then ['i', Char.ofNat 0x302]
  else if c = 'ï' then ['i', Char.ofNat 0x308]
  else if c = 'ñ' then ['n', Char.ofNat 0x303]
  else if c = 'ò' then ['o', Char.ofNat 0x300]
  else if c = 'ó' then ['o', Char.ofNat 0x301]
  else if c = 'ô' then ['o', Char.ofNat 0x302]
  else if c = 'õ' then ['o', Char.ofNat 0x303]
  else if c = 'ö' then ['o', Char.ofNat 0x308]
  else if c = 'ù' then ['u', Char.ofNat 0x300]
  else if c = 'ú' then ['u', Char.ofNat 0x301]
  else if c = 'û' then ['u', Char.ofNat 0x302]
  else if c = 'ü' then ['u', Char.ofNat 0x308]
  else if c = 'ý' then ['y', Char.ofNat 0x301]
  else if c = 'À' then ['A', Char.ofNat 0x300]
  else if c = 'Á' then ['A', Char.ofNat 0x301]
  else if c = 'Ç' then ['C', Char.ofNat 0x327]
  else if c = 'È' then ['E', Char.ofNat 0x300]
  else if c = 'É' then ['E', Char.ofNat 0x301]
  else if c = 'Ö' then ['O', Char.ofNat 0x308]
  else if c = 'Ü' then ['U', Char.ofNat 0x308]
  else [c]

/-- The regexp replacement `.replace(/[^a-z0-9]+/g, " ")`: every maximal run
of characters outside `[a-z0-9]` becomes a single space.  The boolean flag
records whether the previous output character was the space emitted for the
run currently being scanned. -/
def collapseNonAlnum : Bool → List Char → List Char
  | _, [] => []
  | prevSpace, c :: rest =>
    if isAlnumLower c then c :: collapseNonAlnum false rest
    else if prevSpace then collapseNonAlnum true rest
    else ' ' :: collapseNonAlnum true rest

/-- Drop trailing JavaScript whitespace. -/
def dropTrailWS : List Char → List Char
  | [] => []
  | c :: rest =>
    let r := dropTrailWS rest
    if r.isEmpty && isWhitespaceChar c then [] else c :: r

/-- `String.prototype.trim` on a character list: drop leading and trailing
whitespace. -/
def trimChars (l : List Char) : List Char :=
  dropTrailWS (l.dropWhile isWhitespaceChar)

/-- `String.prototype.trim`. -/
def jsTrim (s : String) : String :=
  String.mk (trimChars s.data)

/-- `normalizeText` (src/server/src/index.ts lines 1781-1788): NFD-decompose,
strip combining marks, lowercase, collapse runs of non-alphanumerics to a
single space, trim. -/
def normalizeText (value : String) : String :=
  String.mk (trimChars (collapseNonAlnum false
    (((value.data.flatMap nfdChar).filter (fun c => !isCombiningMark c)).map jsToLowerChar)))

/-! ### Split / substring-search helpers for the JavaScript string built-ins -/

/-- Split on the single-space separator, with JavaScript semantics: the empty
string yields one empty field, and separators at the ends yield empty fields. -/
def jsSplitSpace : List Char → List String
  | [] => [""]
  | c :: rest =>
    let r := jsSplitSpace rest
    if c = ' ' then "" :: r
    else String.mk (c :: (r.headD "").data) :: r.tail

/-- String form of `split(" ")`. -/
def jsSplitSpaceStr (s : String) : List String := jsSplitSpace s.data

/-- Whether the first list begins with the second. -/
def startsWithChars : List Char → List Char → Bool
  | _, [] => true
  | [], _ :: _ => false
  | c :: cs, d :: ds => c == d && startsWithChars cs ds

/-- Whether `needle` occurs contiguously in the haystack
(the semantics of `String.prototype.includes`). -/
def containsChars : List Char → List Char → Bool
  | [], needle => needle.isEmpty
  | c :: cs, needle => startsWithChars (c :: cs) needle || containsChars cs needle

/-- The `includes` test on strings. -/
def jsIncludes (hay needle : String) : Bool := containsChars hay.data needle.data

/-! ### Fuzzy scorer -/

/-- Translation of `scoreMatch` (src/server/src/index.ts lines 1790-1823):
exact normalized match scores 100, otherwise token, compacted-substring and
full-substring bonuses accumulate. -/
def scoreMatch (query fileName : String) : Nat :=
  let normalizedFile := normalizeText fileName
  if normalizedFile = "" then 0
  else if normalizedFile = query then 100
  else
    let queryTokens := (jsSplitSpaceStr query).filter (fun t => t.length > 1)
    let fileTokens := jsSplitSpaceStr normalizedFile
    let tokenScore := queryTokens.foldl (fun s t =>
      if fileTokens.contains t then s + 8
      else if jsIncludes normalizedFile t then s + 4
      else s) 0
    let compactQuery := String.mk (query.data.filter (fun c => !isWhitespaceChar c))
    let compactFile := String.mk (normalizedFile.data.filter (fun c => !isWhitespaceChar c))
    let withCompact :=
      if jsIncludes compactFile compactQuery && compactQuery.length > 3 then tokenScore + 10
      else tokenScore
    if jsIncludes normalizedFile query then withCompact + 6 else withCompact

/-! ### First-occurrence deduplication (the `Set`-based filters) -/

/-- The `Set`-based first-occurrence filter the handlers use, generalised
over the key function: an element is kept exactly when its key has not been
seen before it. -/
def dedupByKeyFirst {α : Type} (key : α → String) (seen : List String) : List α → List α
  | [] => []
  | x :: xs =>
    if seen.contains (key x) then dedupByKeyFirst key seen xs
    else x :: dedupByKeyFirst key (key x :: seen) xs

/-- Specification-style first-occurrence filter: keep the head and drop every
later element sharing its key. -/
def keepFirstByKey {α : Type} (key : α → String) : List α → List α
  | [] => []
  | x :: xs =>
    x :: keepFirstByKey key (xs.filter (fun y => !(key y == key x)))
termination_by l => l.length
decreasing_by simp only [List.length_cons]; exact Nat.lt_succ_of_le (List.length_filter_le _ _)

/-! ### Mapping model and resolution -/

/-- A row of the Prisma `Mapping` table.  The stored `simplyprintFileNames`
column is a nullable JSON string; it is modelled by its parsed value: `some l`
when the column holds a string parsing as a JSON array (elements coerced to
strings), `none` when the column is null, fails to parse, or parses to a
non-array — all cases the code treats as an absent list.  Serialisation by
`JSON.stringify` is modelled as canonical, i.e. as the inverse of this parse. -/
structure Mapping where
  shopifyProductId : String
  shopifyVariantId : Option String
  simplyprintFileNames : Option (List String)
  simplyprintFileName : Option String
  skipQueue : Bool
deriving DecidableEq, Repr

/-- JavaScript truthiness of a nullable string (null and the empty string are
falsy). -/
def strTruthy : Option String → Bool
  | none => false
  | some s => !(s == "")

/-- Translation of `findMapping` (src/server/src/index.ts lines 1603-1623):
a variant-level lookup is attempted when the variant id is truthy, then the
product-level (`variantId = null`) fallback.  The Prisma `findFirst` calls
are modelled as `List.find?` over the table rows in storage order. -/
def findMapping (db : List Mapping) (productId : String) (variantId : Option String) :
    Option Mapping :=
  match (if strTruthy variantId then
      db.find? (fun m => m.shopifyProductId == productId && m.shopifyVariantId == variantId)
    else none) with
  | some variantMatch => some variantMatch
  | none => db.find? (fun m => m.shopifyProductId == productId && m.shopifyVariantId == none)

/-- Translation of `normalizeMappingFiles` (src/server/src/index.ts lines
1647-1677): merge the structured file list with the legacy single filename,
trim every name, drop blanks, and keep the first occurrence of each
`normalizeText` key. -/
def normalizeMappingFiles (mapping : Mapping) : List String :=
  let files := mapping.simplyprintFileNames.getD []
  let legacy := match mapping.simplyprintFileName with
    | some s => if s == "" then [] else [s]
    | none => []
  let merged := ((files ++ legacy).map jsTrim).filter (fun name => name.length > 0)
  dedupByKeyFirst normalizeText [] merged

/-! ### File identifier resolution -/

/-- A file record returned by the SimplyPrint catalog search. -/
structure SPFile where
  id : Nat
  name : String
  ext : Option String
deriving DecidableEq, Repr

/-- The full display name of a catalog file: name dot extension when the
extension is truthy, bare name otherwise. -/
def spFullName (f : SPFile) : String :=
  match f.ext with
  | some e => if e == "" then f.name else f.name ++ "." ++ e
  | none => f.name

/-- Everything strictly before the last dot of a character list
(`slice(0, lastIndexOf("."))`). -/
def beforeLastDot (l : List Char) : List Char :=
  ((l.reverse.dropWhile (fun c => !(c == '.'))).drop 1).reverse

/-- The ordered query candidates of `buildSearchQueries` before blank
filtering and deduplication: the trimmed name, the name with its extension
stripped, then each normalized token of the base longer than two characters. -/
def searchQueryCandidates (fileName : String) : List String :=
  let trimmed := jsTrim fileName
  let base := if trimmed.data.contains '.' then String.mk (beforeLastDot trimmed.data) else trimmed
  let tokens := (jsSplitSpaceStr (normalizeText base)).filter (fun t => t.length > 2)
  trimmed :: base :: tokens

/-- Translation of `buildSearchQueries` (src/server/src/index.ts lines
1770-1779): the candidates with blanks dropped, first occurrences kept
(`Array.from(new Set(queries))` preserves insertion order). -/
def buildSearchQueries (fileName : String) : List String :=
  dedupByKeyFirst (fun s => s) [] ((searchQueryCandidates fileName).filter (fun v => v.length > 0))

/-- The per-candidate acceptance test of `resolveSimplyPrintFileId`: the
normalized full name or the normalized bare name equals the normalized
target. -/
def fileMatchesTarget (fileName : String) (f : SPFile) : Bool :=
  normalizeText (spFullName f) == normalizeText fileName ||
    normalizeText f.name == normalizeText fileName

/-- Translation of `resolveSimplyPrintFileId` (src/server/src/index.ts lines
1736-1768), with the catalog search call abstracted as `search`.  Each query
variant is tried in order; the first accepted candidate's id is returned;
`none` models the thrown not-found error after all variants are exhausted. -/
def resolveSimplyPrintFileId (search : String → List SPFile) (fileName : String) : Option Nat :=
  (buildSearchQueries fileName).findSome? (fun q =>
    ((search q).find? (fileMatchesTarget fileName)).map (fun f => f.id))

/-! ### Queue-group cache -/

/-- Convert a run of decimal digits to a number; `none` when the run is empty
or contains a non-digit. -/
def decDigitsToNat (l : List Char) : Option Nat :=
  l.foldl (fun acc c =>
      match acc with
      | none => none
      | some n => if 48 ≤ c.toNat && c.toNat ≤ 57 then some (n * 10 + (c.toNat - 48)) else none)
    (if l.isEmpty then none else some (0 : Nat))

/-- The JavaScript `Number()` coercion, modelled on the decimal integer
strings this application stores for the queue-group override (an optional
minus sign and digits); `none` models `NaN` and the non-finite results. -/
def jsNumber (s : String) : Option Int :=
  match s.data with
  | '-' :: rest => (decDigitsToNat rest).map (fun n => -(n : Int))
  | l => (decDigitsToNat l).map (fun n => (n : Int))

/-- The module-level queue-group cache (`cachedQueueGroupId`,
`cachedQueueGroupAt`, src/server/src/index.ts lines 1679-1680). -/
structure QueueGroupCache where
  cachedId : Option Int
  cachedAt : Nat
deriving DecidableEq, Repr

/-- A group from the SimplyPrint groups listing. -/
structure SPGroup where
  id : Int
  name : String
deriving DecidableEq, Repr

/-- ASCII-range `toLowerCase` on a whole string, used for the
case-insensitive group-name comparison. -/
def jsLower (s : String) : String := String.mk (s.data.map jsToLowerChar)

/-- The groups-listing fallback of `getQueueGroupId`: the id of the group
whose name case-insensitively equals the target, or the sentinel 0; the
result is cached either way. -/
def getQueueGroupIdLookup (now : Nat) (groups : List SPGroup) (targetName : String) :
    Int × QueueGroupCache :=
  let found := groups.find? (fun g => jsLower g.name == jsLower targetName)
  let newId := match found with
    | some g => g.id
    | none => 0
  (newId, ⟨some newId, now⟩)

/-- The cache-miss path of `getQueueGroupId`: the persisted override setting
is used when its value is truthy and coerces to a truthy finite number
(`savedGroupId && Number.isFinite(savedGroupId)`), otherwise the groups
listing is consulted. -/
def getQueueGroupIdMiss (now : Nat) (settingValue : Option String)
    (groups : List SPGroup) (targetName : String) : Int × QueueGroupCache :=
  let savedGroupId := match settingValue with
    | some v => if v == "" then none else jsNumber v
    | none => none
  match savedGroupId with
  | some n => if n ≠ 0 then (n, ⟨some n, now⟩) else getQueueGroupIdLookup now groups targetName
  | none => getQueueGroupIdLookup now groups targetName

/-- Translation of `getQueueGroupId` (src/server/src/index.ts lines
1682-1713).  The module-level cache is threaded explicitly; `now` is
`Date.now()` in milliseconds, `settingValue` the stored
`simplyprintQueueGroupId` setting value, `groups` the SimplyPrint groups
listing, `targetName` the configured `SIMPLYPRINT_QUEUE_GROUP_NAME`. -/
def getQueueGroupId (st : QueueGroupCache) (now : Nat) (settingValue : Option String)
    (groups : List SPGroup) (targetName : String) : Int × QueueGroupCache :=
  match st.cachedId with
  | some id =>
    if now - st.cachedAt < 5 * 60000 then (id, st)
    else getQueueGroupIdMiss now settingValue groups targetName
  | none => getQueueGroupIdMiss now settingValue groups targetName

/-! ### Suggestion path -/

/-- A scored suggestion entry. -/
structure ScoredFile where
  id : Nat
  name : String
  ext : Option String
  fullName : String
  score : Nat
deriving DecidableEq, Repr

/-- The deduplicated discovery list of the suggestion handler
(src/server/src/index.ts lines 1350-1358): first occurrence per
`String(file.id)` key, in discovery order. -/
def suggestUnique (files : List SPFile) : List SPFile :=
  dedupByKeyFirst (fun f => toString f.id) [] files

/-- The scoring stage of the suggestion handler (src/server/src/index.ts
lines 1359-1371): each unique candidate is scored against the normalized
query and only positive scores are kept. -/
def scoredCandidates (normalizedQuery : String) (files : List SPFile) : List ScoredFile :=
  ((suggestUnique files).map (fun f =>
    { id := f.id, name := f.name, ext := f.ext, fullName := spFullName f,
      score := scoreMatch normalizedQuery (spFullName f) : ScoredFile })).filter
    (fun x => x.score > 0)

/-- The suggestion sort order `(a, b) => b.score - a.score`: `a` may precede
`b` exactly when `b.score ≤ a.score`. -/
def scoreDescLE (a b : ScoredFile) : Bool := decide (b.score ≤ a.score)

/-- The suggestion result list (src/server/src/index.ts lines 1359-1373):
stable sort by score descending (`Array.prototype.sort` is stable, modelled
by `List.mergeSort`) followed by truncation to the first 8 entries. -/
def suggestResults (normalizedQuery : String) (files : List SPFile) : List ScoredFile :=
  ((scoredCandidates normalizedQuery files).mergeSort scoreDescLE).take 8

/-! ### Order-webhook pipeline -/

/-- A line item of an incoming order, after the handler's coercions
(`String(item?.product_id ?? "")`, `item?.variant_id ? String(...) : null`,
`Number(item?.quantity ?? 1)`). -/
structure LineItem where
  productId : String
  variantId : Option String
  sku : Option String
  quantity : Nat
deriving DecidableEq, Repr

/-- An incoming order payload at the webhook boundary. -/
structure OrderPayload where
  orderId : String
  orderName : Option String
  lineItems : List LineItem
deriving DecidableEq, Repr

/-- A row of the `UnmatchedLineItem` table as created by
`recordUnmatchedLineItem` (src/server/src/index.ts lines 1625-1645). -/
structure UnmatchedLineItem where
  orderId : String
  orderName : Option String
  shopifyProductId : String
  shopifyVariantId : Option String
  sku : Option String
  quantity : Nat
  reason : String
deriving DecidableEq, Repr

/-- A nullable string passed through the handler's truthiness coercion
`x ? String(x) : null`. -/
def optTruthy : Option String → Option String
  | some s => if s == "" then none else some s
  | none => none

/-- The `UnmatchedLineItem` record the webhook creates for a line item. -/
def mkUnmatched (orderId : String) (orderName : Option String) (item : LineItem)
    (reason : String) : UnmatchedLineItem :=
  { orderId := orderId, orderName := orderName, shopifyProductId := item.productId,
    shopifyVariantId := item.variantId, sku := optTruthy item.sku,
    quantity := item.quantity, reason := reason }

/-- One step of the per-file loop of the order webhook (src/server/src/index.ts
lines 918-944).  `queueOk fileName quantity` abstracts the awaited
`addToSimplyPrintQueue` call: `false` means it threw (identifier resolution
failed or the submission request failed).  The submission call is attempted
unconditionally and appended to the call log; a thrown error is caught and
recorded as an `UnmatchedLineItem` with reason "Queueing failed" provided the
order id is truthy. -/
def queueFileStep (queueOk : String → Nat → Bool) (orderId : String)
    (orderName : Option String) (item : LineItem)
    (acc : List (String × Nat) × List UnmatchedLineItem) (fileName : String) :
    List (String × Nat) × List UnmatchedLineItem :=
  if queueOk fileName item.quantity then (acc.1 ++ [(fileName, item.quantity)], acc.2)
  else (acc.1 ++ [(fileName, item.quantity)],
    acc.2 ++ (if orderId = "" then [] else [mkUnmatched orderId orderName item "Queueing failed"]))

/-- Processing of one line item of the order webhook (src/server/src/index.ts
lines 878-945): items without a product id are skipped; a missing mapping
produces one "No mapping found" record (when the order id is truthy); a
`skipQueue` mapping is skipped silently; otherwise every effective file is
queued with per-file failure isolation.  Returns the pair (queue submission
calls, unmatched records) the item contributes. -/
def processLineItem (db : List Mapping) (queueOk : String → Nat → Bool)
    (orderId : String) (orderName : Option String) (item : LineItem) :
    List (String × Nat) × List UnmatchedLineItem :=
  if item.productId = "" then ([], [])
  else
    match findMapping db item.productId item.variantId with
    | none =>
      ([], if orderId = "" then [] else [mkUnmatched orderId orderName item "No mapping found"])
    | some mapping =>
      if mapping.skipQueue then ([], [])
      else (normalizeMappingFiles mapping).foldl (queueFileStep queueOk orderId orderName item)
        ([], [])

/-- The line-item loop of the order webhook: submissions and unmatched
records accumulate across the items in array order. -/
def processLineItems (db : List Mapping) (queueOk : String → Nat → Bool)
    (orderId : String) (orderName : Option String) (items : List LineItem) :
    List (String × Nat) × List UnmatchedLineItem :=
  items.foldl (fun acc item =>
    let r := processLineItem db queueOk orderId orderName item
    (acc.1 ++ r.1, acc.2 ++ r.2)) ([], [])

/-- The order webhook handler `POST /api/webhooks/shopify/orders/create`
(src/server/src/index.ts lines 841-953): a failed signature check is rejected
with 401 before any processing; otherwise every line item is processed and
the caller is acknowledged with HTTP 200 and body status "ok" regardless of
the per-item outcomes.  The first component is the (HTTP status, body status)
response, the second the pipeline effects. -/
def handleOrderWebhook (db : List Mapping) (queueOk : String → Nat → Bool)
    (signatureValid : Bool) (order : OrderPayload) :
    (Nat × String) × (List (String × Nat) × List UnmatchedLineItem) :=
  if !signatureValid then ((401, "Invalid webhook signature"), ([], []))
  else ((200, "ok"), processLineItems db queueOk order.orderId order.orderName order.lineItems)

/-! ### Mapping-writing operations (for the legacy-field invariant) -/

/-- Replace the first list entry satisfying `p` by its image under `f`
(the Prisma `update` on the row found by `findFirst`). -/
def updateFirst {α : Type} (p : α → Bool) (f : α → α) : List α → List α
  | [] => []
  | x :: xs => if p x then f x :: xs else x :: updateFirst p f xs

/-- The (productId, variantId) key test on a mapping row. -/
def mappingKeyMatches (productId : String) (variantId : Option String) (m : Mapping) : Bool :=
  m.shopifyProductId == productId && m.shopifyVariantId == variantId

/-- The mapping table after a `POST /api/mappings` request
(src/server/src/index.ts lines 1147-1213).  With no non-blank files: a given
`skipQueue` updates the existing row's flag or creates a flag-only row, and
otherwise the request is rejected leaving the table unchanged.  With files:
the row is created or updated with the serialised list and the legacy field
set to the first file. -/
def postMappings (db : List Mapping) (productId : String) (variantId : Option String)
    (fileName : Option String) (fileNames : Option (List String)) (skipQueue : Option Bool) :
    List Mapping :=
  let normalizedFiles := (fileNames.getD (match fileName with
    | some f => [f]
    | none => [])).filter (fun name => (jsTrim name).length > 0)
  let keyed := mappingKeyMatches productId variantId
  if normalizedFiles.isEmpty then
    match skipQueue with
    | some sq =>
      match db.find? keyed with
      | some _ => updateFirst keyed (fun m => { m with skipQueue := sq }) db
      | none =>
        if sq then
          db ++ [{ shopifyProductId := productId, shopifyVariantId := variantId,
                   simplyprintFileNames := none, simplyprintFileName := none,
                   skipQueue := true }]
        else db
    | none => db
  else
    match db.find? keyed with
    | some _ =>
      updateFirst keyed (fun m =>
        { m with simplyprintFileNames := some normalizedFiles,
                 simplyprintFileName := some (normalizedFiles.headD ""),
                 skipQueue := skipQueue.getD m.skipQueue }) db
    | none =>
      db ++ [{ shopifyProductId := productId, shopifyVariantId := variantId,
               simplyprintFileNames := some normalizedFiles,
               simplyprintFileName := some (normalizedFiles.headD ""),
               skipQueue := skipQueue.getD false }]

/-- The mapping upsert performed by `POST /api/unmatched/:id/queue` when
`saveMapping` is true (src/server/src/index.ts lines 1423-1449). -/
def upsertMappingFromUnmatched (db : List Mapping) (item : UnmatchedLineItem)
    (fileName : String) : List Mapping :=
  let keyed := mappingKeyMatches item.shopifyProductId item.shopifyVariantId
  match db.find? keyed with
  | some _ =>
    updateFirst keyed (fun m =>
      { m with simplyprintFileName := some fileName,
               simplyprintFileNames := some [fileName] }) db
  | none =>
    db ++ [{ shopifyProductId := item.shopifyProductId,
             shopifyVariantId := item.shopifyVariantId,
             simplyprintFileNames := some [fileName],
             simplyprintFileName := some fileName, skipQueue := false }]

/-- The migration step for one mapping row
(src/server/src/migrate-mappings.ts lines 9-41): recover the file list from
the structured column (blank names dropped) or else from the trimmed legacy
field, and rewrite the row — aligning the legacy field with the first file —
unless the list is empty or the column already serialises identically. -/
def migrateOne (m : Mapping) : Mapping :=
  let legacy := match m.simplyprintFileName with
    | some s => jsTrim s
    | none => ""
  let parsedFiles := match m.simplyprintFileNames with
    | some l => l.filter (fun name => (jsTrim name).length > 0)
    | none => []
  let files := if parsedFiles.isEmpty && !(legacy == "") then [legacy] else parsedFiles
  if !files.isEmpty && !(m.simplyprintFileNames == some files) then
    { m with simplyprintFileNames := some files, simplyprintFileName := some (files.headD "") }
  else m

/-- The migration script `run` (src/server/src/migrate-mappings.ts): every
mapping row is migrated independently. -/
def migrateMappings (db : List Mapping) : List Mapping :=
  db.map migrateOne

/-- The per-row consistency property of claim C10: when the structured
file-list column parses as a non-empty array, the legacy single-filename
column holds its first element. -/
def legacyFieldConsistent (m : Mapping) : Bool :=
  match m.simplyprintFileNames with
  | some (x :: _) => m.simplyprintFileName == some x
  | _ => true

/-- Invariant of normalized character lists: no two adjacent spaces, and when
the flag is set the list must not begin with a space (used with the flag
mirroring whether the previously emitted character was a space). -/
def spacedOk : Bool → List Char → Prop
  | _, [] => True
  | prev, c :: rest => (prev = true → c ≠ ' ') ∧ spacedOk (c == ' ') rest

/-! ## Lemmas: the text normalizer -/

theorem isAlnumLower_ne_space {c : Char} (h : isAlnumLower c = true) : c ≠ ' ' := by
  intro hc
  subst hc
  simp [isAlnumLower] at h

theorem isAlnumLower_toNat_lt {c : Char} (h : isAlnumLower c = true) : c.toNat < 0x80 := by
  simp only [isAlnumLower, Bool.or_eq_true, Bool.and_eq_true, decide_eq_true_eq] at h
  omega

theorem isAlnumLower_not_ws {c : Char} (h : isAlnumLower c = true) :
    isWhitespaceChar c = false := by
  simp only [isAlnumLower, Bool.or_eq_true, Bool.and_eq_true, decide_eq_true_eq] at h
  simp only [isWhitespaceChar, Bool.or_eq_false_iff, beq_eq_false_iff_ne, ne_eq]
  omega

theorem space_toNat : (' ' : Char).toNat = 32 := by decide

theorem normalChar_toNat_lt {c : Char} (h : isAlnumLower c = true ∨ c = ' ') :
    c.toNat < 0x80 := by
  rcases h with h | h
  · exact isAlnumLower_toNat_lt h
  · subst h; decide

theorem nfdChar_normal {c : Char} (h : isAlnumLower c = true ∨ c = ' ') :
    nfdChar c = [c] := by
  rw [nfdChar, if_pos (normalChar_toNat_lt h)]

theorem isCombiningMark_normal {c : Char} (h : isAlnumLower c = true ∨ c = ' ') :
    isCombiningMark c = false := by
  have := normalChar_toNat_lt h
  simp only [isCombiningMark, Bool.and_eq_false_iff, decide_eq_false_iff_not]
  omega

theorem jsToLowerChar_normal {c : Char} (h : isAlnumLower c = true ∨ c = ' ') :
    jsToLowerChar c = c := by
  rw [jsToLowerChar, if_neg]
  intro hcontra
  simp only [Bool.and_eq_true, decide_eq_true_eq] at hcontra
  rcases h with h | h
  · simp only [isAlnumLower, Bool.or_eq_true, Bool.and_eq_true, decide_eq_true_eq] at h
    omega
  · subst h
    revert hcontra
    decide

theorem mem_collapseNonAlnum {c : Char} :
    ∀ (l : List Char) (b : Bool), c ∈ collapseNonAlnum b l →
      isAlnumLower c = true ∨ c = ' '
  | [], b => by simp [collapseNonAlnum]
  | x :: rest, b => by
    rw [collapseNonAlnum]
    split
    · rename_i hx
      intro hmem
      rcases List.mem_cons.mp hmem with h | h
      · exact Or.inl (h ▸ hx)
      · exact mem_collapseNonAlnum rest false h
    · split
      · exact fun hmem => mem_collapseNonAlnum rest true hmem
      · intro hmem
        rcases List.mem_cons.mp hmem with h | h
        · exact Or.inr h
        · exact mem_collapseNonAlnum rest true h

theorem spacedOk_collapseNonAlnum :
    ∀ (l : List Char) (b : Bool), spacedOk b (collapseNonAlnum b l)
  | [], b => by simp [collapseNonAlnum, spacedOk]
  | x :: rest, b => by
    rw [collapseNonAlnum]
    split
    · rename_i hx
      refine ⟨fun _ => isAlnumLower_ne_space hx, ?_⟩
      have hxs : (x == ' ') = false := beq_eq_false_iff_ne.mpr (isAlnumLower_ne_space hx)
      rw [hxs]
      exact spacedOk_collapseNonAlnum rest false
    · split
      · rename_i hb
        exact hb ▸ spacedOk_collapseNonAlnum rest true
      · refine ⟨fun hb => ?_, ?_⟩
        · rename_i hbfalse
          exact absurd hb hbfalse
        · rw [show ((' ' : Char) == ' ') = true from rfl]
          exact spacedOk_collapseNonAlnum rest true

theorem collapseNonAlnum_eq_self :
    ∀ (l : List Char) (b : Bool), (∀ c ∈ l, isAlnumLower c = true ∨ c = ' ') →
      spacedOk b l → collapseNonAlnum b l = l
  | [], b, _, _ => by simp [collapseNonAlnum]
  | x :: rest, b, hmem, hsp => by
    rcases hmem x (List.mem_cons_self x rest) with hx | hx
    · rw [collapseNonAlnum, if_pos hx]
      have hxs : (x == ' ') = false := beq_eq_false_iff_ne.mpr (isAlnumLower_ne_space hx)
      have := hsp.2
      rw [hxs] at this
      rw [collapseNonAlnum_eq_self rest false (fun c hc => hmem c (List.mem_cons_of_mem _ hc)) this]
    · subst hx
      have hns : isAlnumLower ' ' = false := by decide
      cases b with
      | true => exact absurd rfl (hsp.1 rfl)
      | false =>
        rw [collapseNonAlnum, if_neg (by simp [hns]), if_neg (by simp)]
        have := hsp.2
        rw [show ((' ' : Char) == ' ') = true from rfl] at this
        rw [collapseNonAlnum_eq_self rest true (fun c hc => hmem c (List.mem_cons_of_mem _ hc)) this]

theorem mem_dropTrailWS {c : Char} : ∀ l : List Char, c ∈ dropTrailWS l → c ∈ l
  | [], h => by simp [dropTrailWS] at h
  | x :: rest, h => by
    simp only [dropTrailWS] at h
    split at h
    · exact absurd h (List.not_mem_nil c)
    · rcases List.mem_cons.mp h with h' | h'
      · exact h' ▸ List.mem_cons_self x rest
      · exact List.mem_cons_of_mem x (mem_dropTrailWS rest h')

theorem spacedOk_dropTrailWS : ∀ (l : List Char) (b : Bool), spacedOk b l →
    spacedOk b (dropTrailWS l)
  | [], _, h => h
  | x :: rest, b, h => by
    simp only [dropTrailWS]
    split
    · trivial
    · exact ⟨h.1, spacedOk_dropTrailWS rest (x == ' ') h.2⟩

theorem head?_dropTrailWS (l : List Char) :
    dropTrailWS l = [] ∨ (dropTrailWS l).head? = l.head? := by
  cases l with
  | nil => exact Or.inl rfl
  | cons x rest =>
    simp only [dropTrailWS]
    split
    · exact Or.inl rfl
    · exact Or.inr rfl

theorem getLast?_dropTrailWS_not_ws :
    ∀ (l : List Char) (c : Char), (dropTrailWS l).getLast? = some c →
      isWhitespaceChar c = false
  | [], c, h => by simp [dropTrailWS] at h
  | x :: rest, c, h => by
    simp only [dropTrailWS] at h
    split at h
    · simp at h
    · rename_i hcond
      cases hr : dropTrailWS rest with
      | nil =>
        rw [hr] at h hcond
        simp only [List.getLast?_singleton, Option.some.injEq] at h
        simp only [List.isEmpty_nil, Bool.true_and, Bool.not_eq_true] at hcond
        exact h ▸ hcond
      | cons y ys =>
        rw [hr, List.getLast?_cons_cons] at h
        exact getLast?_dropTrailWS_not_ws rest c (by rw [hr]; exact h)

theorem dropTrailWS_eq_self :
    ∀ l : List Char, (∀ c, l.getLast? = some c → isWhitespaceChar c = false) →
      dropTrailWS l = l
  | [], _ => rfl
  | x :: rest, h => by
    cases rest with
    | nil =>
      have hx := h x (by simp)
      simp [dropTrailWS, hx]
    | cons y ys =>
      have hrec : dropTrailWS (y :: ys) = y :: ys :=
        dropTrailWS_eq_self (y :: ys)
          (fun c hc => h c (by rw [List.getLast?_cons_cons]; exact hc))
      rw [show dropTrailWS (x :: y :: ys) =
          (if (dropTrailWS (y :: ys)).isEmpty && isWhitespaceChar x then []
           else x :: dropTrailWS (y :: ys)) from rfl, hrec]
      simp

theorem spacedOk_dropWhile_ws : ∀ (l : List Char) (b : Bool), spacedOk b l →
    spacedOk true (l.dropWhile isWhitespaceChar)
  | [], _, _ => trivial
  | x :: rest, b, hsp => by
    by_cases hx : isWhitespaceChar x = true
    · rw [List.dropWhile_cons_of_pos hx]
      exact spacedOk_dropWhile_ws rest (x == ' ') hsp.2
    · rw [List.dropWhile_cons_of_neg (by simpa using hx)]
      refine ⟨fun _ hxeq => ?_, hsp.2⟩
      subst hxeq
      exact hx (by decide)

theorem dropWhile_ws_eq_self :
    ∀ l : List Char, (∀ c, l.head? = some c → isWhitespaceChar c = false) →
      l.dropWhile isWhitespaceChar = l
  | [], _ => rfl
  | x :: rest, h => by
    have hx := h x rfl
    rw [List.dropWhile_cons_of_neg (by simp [hx])]

theorem spacedOk_false_of : ∀ (l : List Char) (b : Bool), spacedOk b l → spacedOk false l
  | [], _, _ => trivial
  | _ :: _, _, h => ⟨fun hf => absurd hf (by decide), h.2⟩

theorem flatMap_nfdChar_eq_self :
    ∀ l : List Char, (∀ c ∈ l, isAlnumLower c = true ∨ c = ' ') → l.flatMap nfdChar = l
  | [], _ => rfl
  | x :: rest, h => by
    rw [List.flatMap_cons, nfdChar_normal (h x (List.mem_cons_self x rest)),
      flatMap_nfdChar_eq_self rest (fun c hc => h c (List.mem_cons_of_mem _ hc))]
    rfl

theorem map_jsToLowerChar_eq_self :
    ∀ l : List Char, (∀ c ∈ l, isAlnumLower c = true ∨ c = ' ') → l.map jsToLowerChar = l
  | [], _ => rfl
  | x :: rest, h => by
    rw [List.map_cons, jsToLowerChar_normal (h x (List.mem_cons_self x rest)),
      map_jsToLowerChar_eq_self rest (fun c hc => h c (List.mem_cons_of_mem _ hc))]

/-- Strings whose characters are normalized (lowercase alphanumerics and
single separating spaces, trimmed) are fixed points of `normalizeText`. -/
theorem normalizeText_fixed (s : String)
    (hmem : ∀ c ∈ s.data, isAlnumLower c = true ∨ c = ' ')
    (hsp : spacedOk false s.data)
    (hhead : ∀ c, s.data.head? = some c → isWhitespaceChar c = false)
    (hlast : ∀ c, s.data.getLast? = some c → isWhitespaceChar c = false) :
    normalizeText s = s := by
  have e1 : s.data.flatMap nfdChar = s.data := flatMap_nfdChar_eq_self s.data hmem
  have e2 : s.data.filter (fun c => !isCombiningMark c) = s.data :=
    List.filter_eq_self.mpr (fun c hc => by simp [isCombiningMark_normal (hmem c hc)])
  have e3 : s.data.map jsToLowerChar = s.data := map_jsToLowerChar_eq_self s.data hmem
  have e4 : collapseNonAlnum false s.data = s.data :=
    collapseNonAlnum_eq_self s.data false hmem hsp
  have e5 : trimChars s.data = s.data := by
    rw [trimChars, dropWhile_ws_eq_self s.data hhead, dropTrailWS_eq_self s.data hlast]
  unfold normalizeText
  rw [e1, e2, e3, e4, e5]

/-- The output of `normalizeText` is normalized in the sense of
`normalizeText_fixed`. -/
theorem normalizeText_output_fixed (l : List Char) :
    normalizeText (String.mk (trimChars (collapseNonAlnum false l))) =
      String.mk (trimChars (collapseNonAlnum false l)) := by
  have hmem : ∀ c ∈ trimChars (collapseNonAlnum false l), isAlnumLower c = true ∨ c = ' ' := by
    intro c hc
    exact mem_collapseNonAlnum l false
      ((List.dropWhile_sublist _).subset (mem_dropTrailWS _ hc))
  have hsp : spacedOk false (trimChars (collapseNonAlnum false l)) :=
    spacedOk_false_of _ true
      (spacedOk_dropTrailWS _ true
        (spacedOk_dropWhile_ws (collapseNonAlnum false l) false
          (spacedOk_collapseNonAlnum l false)))
  have hhead : ∀ c, (trimChars (collapseNonAlnum false l)).head? = some c →
      isWhitespaceChar c = false := by
    intro c hc
    rcases head?_dropTrailWS ((collapseNonAlnum false l).dropWhile isWhitespaceChar) with h | h
    · rw [trimChars, h] at hc
      simp at hc
    · rw [trimChars, h] at hc
      have h4 := List.head?_dropWhile_not isWhitespaceChar (collapseNonAlnum false l)
      rw [hc] at h4
      exact h4
  have hlast : ∀ c, (trimChars (collapseNonAlnum false l)).getLast? = some c →
      isWhitespaceChar c = false := by
    intro c hc
    exact getLast?_dropTrailWS_not_ws ((collapseNonAlnum false l).dropWhile isWhitespaceChar) c hc
  exact normalizeText_fixed _ hmem hsp hhead hlast

/-- C8: For every input string x, `normalizeText (normalizeText x) =
normalizeText x` (idempotence), and normalization is case- and
diacritic-insensitive: `normalizeText "Café" = normalizeText "cafe"`. -/
theorem normalizeText_idempotent_and_insensitive :
    (∀ x : String, normalizeText (normalizeText x) = normalizeText x) ∧
    normalizeText "Café" = normalizeText "cafe" := by
  constructor
  · intro x
    have hx : normalizeText x = String.mk (trimChars (collapseNonAlnum false
        (((x.data.flatMap nfdChar).filter (fun c => !isCombiningMark c)).map
          jsToLowerChar))) := rfl
    rw [hx]
    exact normalizeText_output_fixed _
  · decide

/-! ## Lemmas: first-occurrence deduplication -/

theorem string_beq_comm (a b : String) : (a == b) = (b == a) := by
  by_cases h : a = b
  · subst h; rfl
  · rw [beq_eq_false_iff_ne.mpr h, beq_eq_false_iff_ne.mpr (Ne.symm h)]

theorem dedupByKeyFirst_sublist {α : Type} (key : α → String) :
    ∀ (l : List α) (seen : List String), List.Sublist (dedupByKeyFirst key seen l) l
  | [], _ => List.Sublist.refl []
  | x :: xs, seen => by
    rw [dedupByKeyFirst]
    split
    · exact List.Sublist.cons x (dedupByKeyFirst_sublist key xs seen)
    · exact List.Sublist.cons₂ x (dedupByKeyFirst_sublist key xs (key x :: seen))

theorem mem_dedupByKeyFirst_not_seen {α : Type} (key : α → String) :
    ∀ (l : List α) (seen : List String) (x : α), x ∈ dedupByKeyFirst key seen l →
      seen.contains (key x) = false
  | [], _, _, h => by simp [dedupByKeyFirst] at h
  | y :: ys, seen, x, h => by
    rw [dedupByKeyFirst] at h
    split at h
    · exact mem_dedupByKeyFirst_not_seen key ys seen x h
    · rename_i hny
      simp only [Bool.not_eq_true] at hny
      rcases List.mem_cons.mp h with h' | h'
      · exact h' ▸ hny
      · have hrec := mem_dedupByKeyFirst_not_seen key ys (key y :: seen) x h'
        simp only [List.contains_cons, Bool.or_eq_false_iff] at hrec
        exact hrec.2

theorem pairwise_keys_dedupByKeyFirst {α : Type} (key : α → String) :
    ∀ (l : List α) (seen : List String),
      (dedupByKeyFirst key seen l).Pairwise (fun a b => key a ≠ key b)
  | [], _ => List.Pairwise.nil
  | y :: ys, seen => by
    rw [dedupByKeyFirst]
    split
    · exact pairwise_keys_dedupByKeyFirst key ys seen
    · refine List.Pairwise.cons ?_ (pairwise_keys_dedupByKeyFirst key ys (key y :: seen))
      intro b hb
      have hrec := mem_dedupByKeyFirst_not_seen key ys (key y :: seen) b hb
      simp only [List.contains_cons, Bool.or_eq_false_iff] at hrec
      exact Ne.symm (beq_eq_false_iff_ne.mp hrec.1)

theorem exists_mem_dedupByKeyFirst {α : Type} (key : α → String) :
    ∀ (l : List α) (seen : List String) (x : α), x ∈ l →
      seen.contains (key x) = false → ∃ y ∈ dedupByKeyFirst key seen l, key y = key x
  | [], _, _, hx, _ => absurd hx (List.not_mem_nil _)
  | y :: ys, seen, x, hx, hseen => by
    rw [dedupByKeyFirst]
    split
    · rename_i hy
      rcases List.mem_cons.mp hx with h' | h'
      · subst h'
        rw [hseen] at hy
        cases hy
      · exact exists_mem_dedupByKeyFirst key ys seen x h' hseen
    · by_cases hk : key x = key y
      · exact ⟨y, List.mem_cons_self y _, hk.symm⟩
      · rcases List.mem_cons.mp hx with h' | h'
        · exact absurd (h' ▸ rfl) hk
        · have hseen' : (key y :: seen).contains (key x) = false := by
            simp only [List.contains_cons, Bool.or_eq_false_iff]
            exact ⟨beq_eq_false_iff_ne.mpr hk, hseen⟩
          obtain ⟨z, hz, hzk⟩ := exists_mem_dedupByKeyFirst key ys (key y :: seen) x h' hseen'
          exact ⟨z, List.mem_cons_of_mem y hz, hzk⟩

theorem dedupByKeyFirst_eq_keepFirst {α : Type} (key : α → String) :
    ∀ (l : List α) (seen : List String),
      dedupByKeyFirst key seen l =
        keepFirstByKey key (l.filter (fun x => !seen.contains (key x)))
  | [], _ => by rw [dedupByKeyFirst, List.filter_nil, keepFirstByKey]
  | x :: xs, seen => by
    rw [dedupByKeyFirst, List.filter_cons]
    cases hx : seen.contains (key x) with
    | true =>
      rw [if_pos rfl, if_neg (by decide : ¬((!true) = true))]
      exact dedupByKeyFirst_eq_keepFirst key xs seen
    | false =>
      rw [if_neg (by decide : ¬(false = true)), if_pos (by decide : (!false) = true),
        keepFirstByKey]
      congr 1
      rw [List.filter_filter, dedupByKeyFirst_eq_keepFirst key xs (key x :: seen)]
      congr 1
      apply List.filter_congr
      intro a _
      simp only [List.contains_cons, Bool.not_or]

/-! ## Lemmas: the order-webhook pipeline -/

theorem queueFileStep_foldl (queueOk : String → Nat → Bool) (orderId : String)
    (orderName : Option String) (item : LineItem) (horder : orderId ≠ "") :
    ∀ (files : List String) (acc : List (String × Nat) × List UnmatchedLineItem),
      files.foldl (queueFileStep queueOk orderId orderName item) acc =
        (acc.1 ++ files.map (fun f => (f, item.quantity)),
         acc.2 ++ (files.filter (fun f => !queueOk f item.quantity)).map
           (fun _ => mkUnmatched orderId orderName item "Queueing failed")) := by
  intro files
  induction files with
  | nil => intro acc; simp
  | cons f fs ih =>
    intro acc
    rw [List.foldl_cons, ih]
    by_cases hq : queueOk f item.quantity = true
    · simp [queueFileStep, hq]
    · simp only [Bool.not_eq_true] at hq
      simp [queueFileStep, hq, horder]

theorem foldl_pairAppend {α β γ : Type} (g : α → List β × List γ) :
    ∀ (l : List α) (acc : List β × List γ),
      l.foldl (fun acc x => (acc.1 ++ (g x).1, acc.2 ++ (g x).2)) acc =
        (acc.1 ++ (l.foldl (fun acc x => (acc.1 ++ (g x).1, acc.2 ++ (g x).2)) ([], [])).1,
         acc.2 ++ (l.foldl (fun acc x => (acc.1 ++ (g x).1, acc.2 ++ (g x).2)) ([], [])).2) := by
  intro l
  induction l with
  | nil => intro acc; simp
  | cons x xs ih =>
    intro acc
    rw [List.foldl_cons, List.foldl_cons, ih, ih ((([], []) : List β × List γ).1 ++ (g x).1, _)]
    simp

theorem processLineItems_cons (db : List Mapping) (queueOk : String → Nat → Bool)
    (orderId : String) (orderName : Option String) (item : LineItem) (rest : List LineItem) :
    processLineItems db queueOk orderId orderName (item :: rest) =
      ((processLineItem db queueOk orderId orderName item).1 ++
        (processLineItems db queueOk orderId orderName rest).1,
       (processLineItem db queueOk orderId orderName item).2 ++
        (processLineItems db queueOk orderId orderName rest).2) := by
  simp only [processLineItems, List.foldl_cons]
  rw [foldl_pairAppend (processLineItem db queueOk orderId orderName) rest]
  simp

theorem processLineItems_append (db : List Mapping) (queueOk : String → Nat → Bool)
    (orderId : String) (orderName : Option String) (l₁ l₂ : List LineItem) :
    processLineItems db queueOk orderId orderName (l₁ ++ l₂) =
      ((processLineItems db queueOk orderId orderName l₁).1 ++
        (processLineItems db queueOk orderId orderName l₂).1,
       (processLineItems db queueOk orderId orderName l₁).2 ++
        (processLineItems db queueOk orderId orderName l₂).2) := by
  simp only [processLineItems, List.foldl_append]
  rw [foldl_pairAppend (processLineItem db queueOk orderId orderName) l₂]

/-- C1: For a line item with a product identifier and a resolved mapping with
`skipQueue = false` (in an order with an order id), every effective file is
submitted exactly once in order, each file whose resolution or submission
fails yields its own `UnmatchedLineItem` with reason "Queueing failed", and
neither the remaining files of the item nor the other line items of the order
are affected by those failures. -/
theorem queueing_failure_isolated (db : List Mapping) (queueOk : String → Nat → Bool)
    (orderId : String) (orderName : Option String) (item : LineItem) (m : Mapping)
    (pre post : List LineItem)
    (horder : orderId ≠ "") (hpid : item.productId ≠ "")
    (hmap : findMapping db item.productId item.variantId = some m)
    (hskip : m.skipQueue = false) :
    processLineItem db queueOk orderId orderName item =
      ((normalizeMappingFiles m).map (fun f => (f, item.quantity)),
       ((normalizeMappingFiles m).filter (fun f => !queueOk f item.quantity)).map
         (fun _ => mkUnmatched orderId orderName item "Queueing failed")) ∧
    processLineItems db queueOk orderId orderName (pre ++ item :: post) =
      ((processLineItems db queueOk orderId orderName pre).1 ++
        (processLineItem db queueOk orderId orderName item).1 ++
        (processLineItems db queueOk orderId orderName post).1,
       (processLineItems db queueOk orderId orderName pre).2 ++
        (processLineItem db queueOk orderId orderName item).2 ++
        (processLineItems db queueOk orderId orderName post).2) := by
  constructor
  · simp only [processLineItem, hmap, if_neg hpid, hskip]
    rw [queueFileStep_foldl queueOk orderId orderName item horder]
    simp
  · rw [processLineItems_append, processLineItems_cons]
    simp [List.append_assoc]

/-- C1 witness: a concrete order line with two effective files where the
second submission fails — both files are attempted and exactly one
"Queueing failed" record is produced. -/
theorem queueing_failure_isolated_witness :
    processLineItem [⟨"p1", some "v1", some ["A.gcode", "B.gcode"], none, false⟩]
      (fun f _ => f == "A.gcode") "1001" none ⟨"p1", some "v1", some "SKU", 3⟩ =
      ([("A.gcode", 3), ("B.gcode", 3)],
       [⟨"1001", none, "p1", some "v1", some "SKU", 3, "Queueing failed"⟩]) := by
  have h := (queueing_failure_isolated
    [⟨"p1", some "v1", some ["A.gcode", "B.gcode"], none, false⟩]
    (fun f _ => f == "A.gcode") "1001" none ⟨"p1", some "v1", some "SKU", 3⟩
    ⟨"p1", some "v1", some ["A.gcode", "B.gcode"], none, false⟩ [] []
    (by decide) (by decide) (by decide) rfl).1
  rw [h]
  decide

/-- C2: For every order payload passing signature verification, the response
to the caller is the success acknowledgment (HTTP 200, status "ok"),
whatever the mapping table and whatever the outcome of every queue
submission. -/
theorem webhook_always_acknowledges (db : List Mapping) (queueOk : String → Nat → Bool)
    (signatureValid : Bool) (order : OrderPayload) (hsig : signatureValid = true) :
    (handleOrderWebhook db queueOk signatureValid order).1 = (200, "ok") := by
  subst hsig
  rfl

/-- C2 witness: a concrete order whose only line item has no mapping and
whose queue oracle always fails is still acknowledged with 200/"ok". -/
theorem webhook_always_acknowledges_witness :
    (handleOrderWebhook [] (fun _ _ => false) true
      ⟨"1001", none, [⟨"p1", none, none, 1⟩]⟩).1 = (200, "ok") :=
  webhook_always_acknowledges [] (fun _ _ => false) true
    ⟨"1001", none, [⟨"p1", none, none, 1⟩]⟩ rfl

/-- C3: A line item with a product identifier but no variant- or
product-level mapping contributes exactly one `UnmatchedLineItem` with reason
"No mapping found" and zero queue-submission calls, and processing continues
with the remaining items. -/
theorem no_mapping_found_record (db : List Mapping) (queueOk : String → Nat → Bool)
    (orderId : String) (orderName : Option String) (item : LineItem) (rest : List LineItem)
    (horder : orderId ≠ "") (hpid : item.productId ≠ "")
    (hmap : findMapping db item.productId item.variantId = none) :
    processLineItem db queueOk orderId orderName item =
      ([], [mkUnmatched orderId orderName item "No mapping found"]) ∧
    processLineItems db queueOk orderId orderName (item :: rest) =
      ((processLineItems db queueOk orderId orderName rest).1,
       mkUnmatched orderId orderName item "No mapping found" ::
         (processLineItems db queueOk orderId orderName rest).2) := by
  have h1 : processLineItem db queueOk orderId orderName item =
      ([], [mkUnmatched orderId orderName item "No mapping found"]) := by
    simp [processLineItem, hmap, hpid, horder]
  refine ⟨h1, ?_⟩
  rw [processLineItems_cons, h1]
  simp

/-- C3 witness: a concrete line item with no stored mapping produces exactly
one "No mapping found" record and no submissions, and the following item is
still processed. -/
theorem no_mapping_found_record_witness :
    processLineItem [⟨"other", none, some ["X.gcode"], none, false⟩]
      (fun _ _ => true) "1002" (some "#1002") ⟨"p2", none, none, 2⟩ =
      ([], [⟨"1002", some "#1002", "p2", none, none, 2, "No mapping found"⟩]) ∧
    processLineItems [⟨"other", none, some ["X.gcode"], none, false⟩]
      (fun _ _ => true) "1002" (some "#1002")
      [⟨"p2", none, none, 2⟩, ⟨"other", none, none, 5⟩] =
      ([("X.gcode", 5)],
       [⟨"1002", some "#1002", "p2", none, none, 2, "No mapping found"⟩]) := by
  have h := no_mapping_found_record [⟨"other", none, some ["X.gcode"], none, false⟩]
    (fun _ _ => true) "1002" (some "#1002") ⟨"p2", none, none, 2⟩
    [⟨"other", none, none, 5⟩] (by decide) (by decide) (by decide)
  refine ⟨h.1, ?_⟩
  rw [h.2]
  decide

/-! ## Lemmas: mapping resolution -/

theorem find?_eq_some_of_unique {α : Type} (p : α → Bool) (l : List α) (m : α)
    (hm : m ∈ l) (hpm : p m = true) (hu : ∀ y ∈ l, p y = true → y = m) :
    l.find? p = some m := by
  cases hfind : l.find? p with
  | none =>
    rw [List.find?_eq_none] at hfind
    exact absurd hpm (by simpa using hfind m hm)
  | some y =>
    rw [hu y (List.mem_of_find?_eq_some hfind) (List.find?_some hfind)]

/-- C4 counterexample: a mapping stored for the pair ("p1", variantId "")
exists and the queried variantId "" is non-null, yet resolution reports
not-found — the code treats an empty-string variant id as absent (JavaScript
truthiness), contradicting the claim's "non-null" condition. -/
theorem findMapping_counterexample :
    (some "" : Option String) ≠ none ∧
    (⟨"p1", some "", none, none, false⟩ : Mapping) ∈
      [(⟨"p1", some "", none, none, false⟩ : Mapping)] ∧
    findMapping [⟨"p1", some "", none, none, false⟩] "p1" (some "") = none := by
  decide

/-- C4 (amended): under the at-most-one-mapping-per-pair invariant,
resolution returns the mapping stored for (productId, variantId) when
variantId is truthy (non-null and non-empty) and such a mapping exists;
otherwise it returns the mapping stored for (productId, null) when one
exists; and it reports not-found exactly when no applicable variant-level
mapping and no product-level mapping exist. -/
theorem findMapping_resolution (db : List Mapping) (productId : String)
    (variantId : Option String)
    (huniq : ∀ m₁ ∈ db, ∀ m₂ ∈ db, m₁.shopifyProductId = m₂.shopifyProductId →
      m₁.shopifyVariantId = m₂.shopifyVariantId → m₁ = m₂) :
    (strTruthy variantId = true →
      ∀ m ∈ db, m.shopifyProductId = productId → m.shopifyVariantId = variantId →
        findMapping db productId variantId = some m) ∧
    ((strTruthy variantId = false ∨
        ∀ m ∈ db, ¬(m.shopifyProductId = productId ∧ m.shopifyVariantId = variantId)) →
      ∀ m ∈ db, m.shopifyProductId = productId → m.shopifyVariantId = none →
        findMapping db productId variantId = some m) ∧
    (findMapping db productId variantId = none ↔
      ((∀ m ∈ db, ¬(strTruthy variantId = true ∧ m.shopifyProductId = productId ∧
          m.shopifyVariantId = variantId)) ∧
       (∀ m ∈ db, ¬(m.shopifyProductId = productId ∧ m.shopifyVariantId = none)))) := by
  refine ⟨?_, ?_, ?_⟩
  · intro hT m hm hp hv
    have hfind : db.find? (fun x =>
        x.shopifyProductId == productId && x.shopifyVariantId == variantId) = some m := by
      refine find?_eq_some_of_unique _ db m hm (by simp [hp, hv]) ?_
      intro y hy hpy
      obtain ⟨h1, h2⟩ : y.shopifyProductId = productId ∧ y.shopifyVariantId = variantId := by
        simpa using hpy
      exact huniq y hy m hm (by rw [h1, hp]) (by rw [h2, hv])
    rw [findMapping, if_pos hT, hfind]
  · intro h0 m hm hp hv
    have hfall : db.find? (fun x =>
        x.shopifyProductId == productId && x.shopifyVariantId == none) = some m := by
      refine find?_eq_some_of_unique _ db m hm (by simp [hp, hv]) ?_
      intro y hy hpy
      obtain ⟨h1, h2⟩ : y.shopifyProductId = productId ∧ y.shopifyVariantId = none := by
        simpa using hpy
      exact huniq y hy m hm (by rw [h1, hp]) (by rw [h2, hv])
    cases hT : strTruthy variantId with
    | false =>
      rw [findMapping, if_neg (by simp [hT])]
      exact hfall
    | true =>
      rcases h0 with h0 | h0
      · rw [hT] at h0
        cases h0
      · have hnone : db.find? (fun x =>
            x.shopifyProductId == productId && x.shopifyVariantId == variantId) = none := by
          rw [List.find?_eq_none]
          intro x hx
          simpa using h0 x hx
        rw [findMapping, if_pos hT, hnone]
        exact hfall
  · by_cases hT : strTruthy variantId = true
    · rw [findMapping, if_pos hT]
      cases hfind : db.find? (fun x =>
          x.shopifyProductId == productId && x.shopifyVariantId == variantId) with
      | some y =>
        simp only [hfind]
        constructor
        · intro h
          simp at h
        · rintro ⟨h1, -⟩
          obtain ⟨hp, hv⟩ : y.shopifyProductId = productId ∧ y.shopifyVariantId = variantId := by
            simpa using List.find?_some hfind
          exact absurd ⟨hT, hp, hv⟩ (h1 y (List.mem_of_find?_eq_some hfind))
      | none =>
        simp only [hfind]
        rw [List.find?_eq_none] at hfind
        rw [List.find?_eq_none]
        constructor
        · intro h
          refine ⟨fun m hm hc => ?_, fun m hm hc => ?_⟩
          · exact absurd (by simp [hc.2.1, hc.2.2] :
              (m.shopifyProductId == productId && m.shopifyVariantId == variantId) = true)
              (by simpa using hfind m hm)
          · exact absurd (by simp [hc.1, hc.2] :
              (m.shopifyProductId == productId && m.shopifyVariantId == none) = true)
              (by simpa using h m hm)
        · rintro ⟨-, h2⟩ m hm
          intro hpm
          obtain ⟨hp, hv⟩ : m.shopifyProductId = productId ∧ m.shopifyVariantId = none := by
            simpa using hpm
          exact h2 m hm ⟨hp, hv⟩
    · have hT' : strTruthy variantId = false := by simpa using hT
      rw [findMapping, if_neg hT]
      show db.find? _ = none ↔ _
      rw [List.find?_eq_none]
      constructor
      · intro h
        refine ⟨fun m hm hc => ?_, fun m hm hc => ?_⟩
        · rw [hT'] at hc
          cases hc.1
        · exact absurd (by simp [hc.1, hc.2] :
            (m.shopifyProductId == productId && m.shopifyVariantId == none) = true)
            (by simpa using h m hm)
      · rintro ⟨-, h2⟩ m hm
        intro hpm
        obtain ⟨hp, hv⟩ : m.shopifyProductId = productId ∧ m.shopifyVariantId = none := by
          simpa using hpm
        exact h2 m hm ⟨hp, hv⟩

/-- C4 witness: with both a variant-level and a product-level mapping stored
for the same product, a truthy matching variant id resolves to the
variant-level row, and a truthy non-matching variant id falls back to the
product-level row. -/
theorem findMapping_resolution_witness :
    findMapping [⟨"p1", some "v1", some ["A"], none, false⟩,
        ⟨"p1", none, some ["B"], none, false⟩] "p1" (some "v1") =
      some ⟨"p1", some "v1", some ["A"], none, false⟩ ∧
    findMapping [⟨"p1", some "v1", some ["A"], none, false⟩,
        ⟨"p1", none, some ["B"], none, false⟩] "p1" (some "v9") =
      some ⟨"p1", none, some ["B"], none, false⟩ := by
  constructor
  · exact (findMapping_resolution
      [⟨"p1", some "v1", some ["A"], none, false⟩, ⟨"p1", none, some ["B"], none, false⟩]
      "p1" (some "v1") (by decide)).1 (by decide) _ (by decide) rfl rfl
  · exact (findMapping_resolution
      [⟨"p1", some "v1", some ["A"], none, false⟩, ⟨"p1", none, some ["B"], none, false⟩]
      "p1" (some "v9") (by decide)).2.1 (Or.inr (by decide)) _ (by decide) rfl rfl

/-! ## Lemmas: the effective file list -/

/-- C6 counterexample: a structured entry stored as "  Widget.gcode" appears
in the effective list as "Widget.gcode" — the merge trims every name, so the
first kept occurrence does not preserve the original spelling when it carries
surrounding whitespace. -/
theorem normalizeMappingFiles_counterexample :
    normalizeMappingFiles ⟨"p1", none, some ["  Widget.gcode"], none, false⟩ =
      ["Widget.gcode"] ∧
    normalizeMappingFiles ⟨"p1", none, some ["  Widget.gcode"], none, false⟩ ≠
      ["  Widget.gcode"] := by
  decide

/-- C6 (amended): the effective file list is the concatenation of the
structured list followed by the legacy single filename, each name trimmed,
blank names dropped, and only the first occurrence of each distinct
`normalizeText` key kept — preserving order and the trimmed (but otherwise
original) spelling; in particular structured ["Widget.gcode", "widget.gcode"]
plus legacy "WIDGET.GCODE" yields exactly ["Widget.gcode"]. -/
theorem normalizeMappingFiles_spec :
    (∀ m : Mapping,
      normalizeMappingFiles m =
        keepFirstByKey normalizeText
          (((m.simplyprintFileNames.getD [] ++ (match m.simplyprintFileName with
              | some s => if s == "" then [] else [s]
              | none => [])).map jsTrim).filter (fun name => name.length > 0))) ∧
    normalizeMappingFiles ⟨"p1", none, some ["Widget.gcode", "widget.gcode"],
      some "WIDGET.GCODE", false⟩ = ["Widget.gcode"] := by
  constructor
  · intro m
    simp only [normalizeMappingFiles]
    rw [dedupByKeyFirst_eq_keepFirst]
    congr 1
    apply List.filter_eq_self.mpr
    intro a _
    simp [List.contains]
  · decide

/-! ## Lemmas: the queue-group cache -/

/-- C7 counterexample: with an empty cache and the persisted override setting
"0" — present and numeric — the lookup ignores the override (the number 0 is
falsy in JavaScript), consults the groups listing and returns the matching
group's id 5, not the setting's value 0. -/
theorem getQueueGroupId_counterexample :
    jsNumber "0" = some 0 ∧
    getQueueGroupId ⟨none, 0⟩ 0 (some "0") [⟨5, "print farm"⟩] "Print Farm" =
      (5, ⟨some 5, 0⟩) ∧
    (5 : Int) ≠ 0 := by
  decide

/-- C7 (amended): a cached id younger than the 5-minute TTL is returned with
the cache unchanged; on a miss, the persisted override is returned and cached
whenever it is present and parses to a nonzero finite number; otherwise the
id of the group whose name case-insensitively equals the target (or the
sentinel 0 when none matches) is returned and cached. -/
theorem getQueueGroupId_spec (st : QueueGroupCache) (now : Nat)
    (settingValue : Option String) (groups : List SPGroup) (targetName : String) :
    (∀ id, st.cachedId = some id → now - st.cachedAt < 5 * 60000 →
      getQueueGroupId st now settingValue groups targetName = (id, st)) ∧
    ((st.cachedId = none ∨ ¬(now - st.cachedAt < 5 * 60000)) →
      ∀ v n, settingValue = some v → v ≠ "" → jsNumber v = some n → n ≠ 0 →
        getQueueGroupId st now settingValue groups targetName = (n, ⟨some n, now⟩)) ∧
    ((st.cachedId = none ∨ ¬(now - st.cachedAt < 5 * 60000)) →
      (∀ v, settingValue = some v → v = "" ∨ jsNumber v = none ∨ jsNumber v = some 0) →
      ((∀ g ∈ groups, jsLower g.name = jsLower targetName →
          (∀ g' ∈ groups, jsLower g'.name = jsLower targetName → g' = g) →
          getQueueGroupId st now settingValue groups targetName =
            (g.id, ⟨some g.id, now⟩)) ∧
       ((∀ g ∈ groups, jsLower g.name ≠ jsLower targetName) →
          getQueueGroupId st now settingValue groups targetName = (0, ⟨some 0, now⟩)))) := by
  have hmissEq : (st.cachedId = none ∨ ¬(now - st.cachedAt < 5 * 60000)) →
      getQueueGroupId st now settingValue groups targetName =
        getQueueGroupIdMiss now settingValue groups targetName := by
    intro hmiss
    rcases hmiss with h | h
    · simp [getQueueGroupId, h]
    · cases hc : st.cachedId with
      | none => simp [getQueueGroupId, hc]
      | some id => simp [getQueueGroupId, hc, h]
  refine ⟨?_, ?_, ?_⟩
  · intro id hid hage
    simp [getQueueGroupId, hid, hage]
  · intro hmiss v n hv hne hnum hn0
    rw [hmissEq hmiss]
    simp [getQueueGroupIdMiss, hv, beq_eq_false_iff_ne.mpr hne, hnum, hn0]
  · intro hmiss hsetting
    have hlookup : getQueueGroupIdMiss now settingValue groups targetName =
        getQueueGroupIdLookup now groups targetName := by
      cases hv : settingValue with
      | none => simp [getQueueGroupIdMiss]
      | some v =>
        rcases hsetting v hv with h | h | h
        · simp [getQueueGroupIdMiss, h]
        · simp only [getQueueGroupIdMiss]
          by_cases he : v == ""
          · simp [he]
          · simp [he, h]
        · simp only [getQueueGroupIdMiss]
          by_cases he : v == ""
          · simp [he]
          · simp [he, h]
    constructor
    · intro g hg hname huniq
      have hfound : groups.find? (fun g => jsLower g.name == jsLower targetName) = some g := by
        refine find?_eq_some_of_unique _ groups g hg (by simp [hname]) ?_
        intro y hy hpy
        exact huniq y hy (by simpa using hpy)
      rw [hmissEq hmiss, hlookup]
      simp [getQueueGroupIdLookup, hfound]
    · intro hnone
      have hfound : groups.find? (fun g => jsLower g.name == jsLower targetName) = none := by
        rw [List.find?_eq_none]
        intro g hg
        simpa using hnone g hg
      rw [hmissEq hmiss, hlookup]
      simp [getQueueGroupIdLookup, hfound]

/-- C7 witness: a fresh cache entry is served unchanged; on a miss a nonzero
numeric override wins; otherwise the case-insensitive group match (or the
sentinel 0) is returned and cached. -/
theorem getQueueGroupId_spec_witness :
    getQueueGroupId ⟨some 7, 100⟩ 200 (some "42") [] "x" = (7, ⟨some 7, 100⟩) ∧
    getQueueGroupId ⟨none, 0⟩ 1000 (some "42") [] "x" = (42, ⟨some 42, 1000⟩) ∧
    getQueueGroupId ⟨none, 0⟩ 1000 none [⟨5, "Print Farm"⟩] "print farm" =
      (5, ⟨some 5, 1000⟩) ∧
    getQueueGroupId ⟨none, 0⟩ 1000 none [] "print farm" = (0, ⟨some 0, 1000⟩) := by
  refine ⟨?_, ?_, ?_, ?_⟩
  · exact (getQueueGroupId_spec ⟨some 7, 100⟩ 200 (some "42") [] "x").1 7 rfl (by decide)
  · exact (getQueueGroupId_spec ⟨none, 0⟩ 1000 (some "42") [] "x").2.1 (Or.inl rfl)
      "42" 42 rfl (by decide) (by decide) (by decide)
  · exact ((getQueueGroupId_spec ⟨none, 0⟩ 1000 none [⟨5, "Print Farm"⟩] "print farm").2.2
      (Or.inl rfl) (fun v hv => Option.noConfusion hv)).1 ⟨5, "Print Farm"⟩ (by decide)
      (by decide) (by decide)
  · exact ((getQueueGroupId_spec ⟨none, 0⟩ 1000 none [] "print farm").2.2
      (Or.inl rfl) (fun v hv => Option.noConfusion hv)).2 (by decide)

/-! ## Lemmas: mapping-writing operations -/

theorem mem_updateFirst {α : Type} (p : α → Bool) (f : α → α) :
    ∀ (l : List α) (x : α), x ∈ updateFirst p f l → x ∈ l ∨ ∃ y ∈ l, x = f y
  | [], x, h => by simp [updateFirst] at h
  | z :: zs, x, h => by
    rw [updateFirst] at h
    split at h
    · rcases List.mem_cons.mp h with h' | h'
      · exact Or.inr ⟨z, List.mem_cons_self z zs, h'⟩
      · exact Or.inl (List.mem_cons_of_mem z h')
    · rcases List.mem_cons.mp h with h' | h'
      · exact Or.inl (h' ▸ List.mem_cons_self z zs)
      · rcases mem_updateFirst p f zs x h' with h'' | ⟨y, hy, hxy⟩
        · exact Or.inl (List.mem_cons_of_mem z h'')
        · exact Or.inr ⟨y, List.mem_cons_of_mem z hy, hxy⟩

theorem legacyFieldConsistent_set (m : Mapping) (files : List String) (h : files ≠ []) :
    legacyFieldConsistent { m with simplyprintFileNames := some files, simplyprintFileName := some (files.headD "") } = true := by
  cases files with
  | nil => exact absurd rfl h
  | cons x xs => simp [legacyFieldConsistent]

/-- C10: every mapping-writing operation — saving via the mappings endpoint,
the manual-resolution upsert, and the migration script — preserves the
invariant that a structured file list parsing as a non-empty array has the
legacy single-filename field equal to its first element. -/
theorem legacy_field_invariant (db : List Mapping)
    (productId : String) (variantId : Option String) (fileName : Option String)
    (fileNames : Option (List String)) (skipQueue : Option Bool)
    (item : UnmatchedLineItem) (resolvedFile : String)
    (hinv : ∀ m ∈ db, legacyFieldConsistent m = true) :
    (∀ m ∈ postMappings db productId variantId fileName fileNames skipQueue,
      legacyFieldConsistent m = true) ∧
    (∀ m ∈ upsertMappingFromUnmatched db item resolvedFile,
      legacyFieldConsistent m = true) ∧
    (∀ m ∈ migrateMappings db, legacyFieldConsistent m = true) := by
  refine ⟨?_, ?_, ?_⟩
  · intro m hm
    simp only [postMappings] at hm
    split at hm
    · split at hm
      · split at hm
        · rcases mem_updateFirst _ _ db m hm with h' | ⟨y, hy, rfl⟩
          · exact hinv m h'
          · simpa [legacyFieldConsistent] using hinv y hy
        · split at hm
          · rcases List.mem_append.mp hm with h' | h'
            · exact hinv m h'
            · rcases List.mem_singleton.mp h' with rfl
              rfl
          · exact hinv m hm
      · exact hinv m hm
    · rename_i hne
      split at hm
      · rcases mem_updateFirst _ _ db m hm with h' | ⟨y, hy, rfl⟩
        · exact hinv m h'
        · refine legacyFieldConsistent_set y _ ?_
          intro hnil
          rw [hnil] at hne
          exact hne rfl
      · rcases List.mem_append.mp hm with h' | h'
        · exact hinv m h'
        · rcases List.mem_singleton.mp h' with rfl
          refine legacyFieldConsistent_set
            ⟨productId, variantId, none, none, skipQueue.getD false⟩ _ ?_
          intro hnil
          rw [hnil] at hne
          exact hne rfl
  · intro m hm
    simp only [upsertMappingFromUnmatched] at hm
    split at hm
    · rcases mem_updateFirst _ _ db m hm with h' | ⟨y, hy, rfl⟩
      · exact hinv m h'
      · simp [legacyFieldConsistent]
    · rcases List.mem_append.mp hm with h' | h'
      · exact hinv m h'
      · rcases List.mem_singleton.mp h' with rfl
        simp [legacyFieldConsistent]
  · intro m hm
    simp only [migrateMappings] at hm
    obtain ⟨y, hy, rfl⟩ := List.mem_map.mp hm
    simp only [migrateOne]
    split
    · split
      · refine legacyFieldConsistent_set y _ ?_
        exact List.cons_ne_nil _ _
      · exact hinv y hy
    · split
      · rename_i hcond
        refine legacyFieldConsistent_set y _ ?_
        intro hnil
        rw [hnil] at hcond
        simp at hcond
      · exact hinv y hy

/-- C10 witness: concrete runs of the three write paths, each leaving every
stored mapping with a consistent legacy field. -/
theorem legacy_field_invariant_witness :
    ((postMappings [⟨"p1", none, some ["Old.gcode"], some "Old.gcode", false⟩]
        "p1" none none (some ["New1.gcode", "New2.gcode"]) none).all
      legacyFieldConsistent = true) ∧
    ((upsertMappingFromUnmatched [⟨"p1", none, some ["Old.gcode"], some "Old.gcode", false⟩]
        ⟨"1", none, "p2", none, none, 1, "No mapping found"⟩ "Chosen.gcode").all
      legacyFieldConsistent = true) ∧
    ((migrateMappings [⟨"p1", none, some ["Old.gcode"], some "Old.gcode", false⟩]).all
      legacyFieldConsistent = true) := by
  have h := legacy_field_invariant [⟨"p1", none, some ["Old.gcode"], some "Old.gcode", false⟩]
    "p1" none none (some ["New1.gcode", "New2.gcode"]) none
    ⟨"1", none, "p2", none, none, 1, "No mapping found"⟩ "Chosen.gcode" (by decide)
  exact ⟨List.all_eq_true.mpr (fun m hm => h.1 m hm),
    List.all_eq_true.mpr (fun m hm => h.2.1 m hm),
    List.all_eq_true.mpr (fun m hm => h.2.2 m hm)⟩

/-! ## Lemmas: file identifier resolution -/

theorem string_ne_empty_of_length_pos {s : String} (h : 0 < s.length) : s ≠ "" := by
  intro heq
  subst heq
  simp at h

theorem string_length_pos_of_ne {s : String} (h : s ≠ "") : 0 < s.length := by
  rcases s with ⟨l⟩
  cases l with
  | nil => exact absurd (by decide) h
  | cons c cs =>
    show 0 < (c :: cs).length
    simp

/-- C5: the query variants are, in order and with duplicates removed, the
trimmed literal name, the extension-stripped name, and the long-enough
normalized tokens of the base (exactly the non-blank candidates); resolution
fails exactly when no variant's search returns an acceptable candidate; and
the first acceptable candidate of the first productive variant wins, its id
being returned. -/
theorem resolveFileId_spec (search : String → List SPFile) (fileName : String) :
    List.Sublist (buildSearchQueries fileName) (searchQueryCandidates fileName) ∧
    (buildSearchQueries fileName).Nodup ∧
    (∀ q, q ∈ buildSearchQueries fileName ↔ q ∈ searchQueryCandidates fileName ∧ q ≠ "") ∧
    (resolveSimplyPrintFileId search fileName = none ↔
      ∀ q ∈ buildSearchQueries fileName, ∀ f ∈ search q,
        fileMatchesTarget fileName f = false) ∧
    (∀ qs₁ q qs₂ fs₁ f fs₂, buildSearchQueries fileName = qs₁ ++ q :: qs₂ →
      (∀ q' ∈ qs₁, ∀ f' ∈ search q', fileMatchesTarget fileName f' = false) →
      search q = fs₁ ++ f :: fs₂ →
      (∀ f' ∈ fs₁, fileMatchesTarget fileName f' = false) →
      fileMatchesTarget fileName f = true →
      resolveSimplyPrintFileId search fileName = some f.id) := by
  refine ⟨?_, ?_, ?_, ?_, ?_⟩
  · exact (dedupByKeyFirst_sublist (fun s => s) _ []).trans (List.filter_sublist _)
  · exact pairwise_keys_dedupByKeyFirst (fun s => s) _ []
  · intro q
    constructor
    · intro hq
      have hmem := (dedupByKeyFirst_sublist (fun s => s) _ []).subset hq
      rw [List.mem_filter] at hmem
      exact ⟨hmem.1, string_ne_empty_of_length_pos (by simpa using hmem.2)⟩
    · rintro ⟨hq, hne⟩
      have hmem : q ∈ (searchQueryCandidates fileName).filter (fun v => v.length > 0) :=
        List.mem_filter.mpr ⟨hq, by simpa using string_length_pos_of_ne hne⟩
      obtain ⟨y, hy, hyq⟩ := exists_mem_dedupByKeyFirst (fun s => s) _ [] q hmem rfl
      exact hyq ▸ hy
  · rw [resolveSimplyPrintFileId, List.findSome?_eq_none_iff]
    constructor
    · intro h q hq f hf
      have hq' := h q hq
      rw [Option.map_eq_none', List.find?_eq_none] at hq'
      simpa using hq' f hf
    · intro h q hq
      rw [Option.map_eq_none', List.find?_eq_none]
      intro f hf
      simp [h q hq f hf]
  · intro qs₁ q qs₂ fs₁ f fs₂ hsplit hprior hsearch hfs hmatch
    have h2 : (search q).find? (fileMatchesTarget fileName) = some f := by
      rw [hsearch, List.find?_append,
        List.find?_eq_none.mpr (fun f' hf' => by simp [hfs f' hf'])]
      rw [Option.none_or]
      exact List.find?_cons_of_pos fs₂ hmatch
    have h3 : ((search q).find? (fileMatchesTarget fileName)).map (fun x => x.id) =
        some f.id := by
      rw [h2]
      rfl
    have h1 : qs₁.findSome? (fun q =>
        ((search q).find? (fileMatchesTarget fileName)).map (fun f => f.id)) = none := by
      rw [List.findSome?_eq_none_iff]
      intro q' hq'
      rw [Option.map_eq_none', List.find?_eq_none]
      intro f' hf'
      simp [hprior q' hq' f' hf']
    rw [resolveSimplyPrintFileId, hsplit, List.findSome?_append, h1, Option.none_or,
      List.findSome?_cons]
    simp [h3]

/-- C5 witness: for "Part-01.gcode" the query variants are the literal name,
the base "Part-01" and the token "part"; with a catalog that only answers
the base query, resolution still succeeds with the candidate's id. -/
theorem resolveFileId_spec_witness :
    buildSearchQueries "Part-01.gcode" = ["Part-01.gcode", "Part-01", "part"] ∧
    resolveSimplyPrintFileId
      (fun q => if q == "Part-01" then [⟨7, "Part-01", some "gcode"⟩] else [])
      "Part-01.gcode" = some 7 := by
  constructor
  · decide
  · exact (resolveFileId_spec
      (fun q => if q == "Part-01" then [⟨7, "Part-01", some "gcode"⟩] else [])
      "Part-01.gcode").2.2.2.2 ["Part-01.gcode"] "Part-01" ["part"] []
      ⟨7, "Part-01", some "gcode"⟩ []
      (by decide) (by decide) (by decide) (by decide) (by decide)

/-! ## Lemmas: the suggestion ranking -/

theorem scoreDescLE_trans (a b c : ScoredFile) (hab : scoreDescLE a b) (hbc : scoreDescLE b c) :
    scoreDescLE a c := by
  simp only [scoreDescLE, decide_eq_true_eq] at *
  omega

theorem scoreDescLE_total (a b : ScoredFile) : scoreDescLE a b || scoreDescLE b a := by
  simp only [scoreDescLE, Bool.or_eq_true, decide_eq_true_eq]
  exact Nat.le_total b.score a.score

/-- C9: for every normalized query and every discovered candidate list, the
suggestion results are sorted by score descending, contain at most 8 entries,
and candidates with equal scores keep the relative order in which they were
discovered (the equal-score subsequence of the results is an order-preserving
subsequence of the scored discovery list). -/
theorem suggestResults_spec (normalizedQuery : String) (files : List SPFile) :
    (suggestResults normalizedQuery files).length ≤ 8 ∧
    (suggestResults normalizedQuery files).Pairwise (fun a b => b.score ≤ a.score) ∧
    (∀ s : Nat, List.Sublist
      ((suggestResults normalizedQuery files).filter (fun x => x.score == s))
      ((scoredCandidates normalizedQuery files).filter (fun x => x.score == s))) := by
  refine ⟨?_, ?_, ?_⟩
  · exact List.length_take_le 8 _
  · have hsorted : ((scoredCandidates normalizedQuery files).mergeSort scoreDescLE).Pairwise
        (fun a b => scoreDescLE a b) :=
      List.sorted_mergeSort scoreDescLE_trans scoreDescLE_total _
    have := hsorted.sublist (List.take_sublist 8 _)
    exact this.imp (fun hab => by simpa [scoreDescLE] using hab)
  · intro s
    have hpw : ((scoredCandidates normalizedQuery files).filter
        (fun x => x.score == s)).Pairwise (fun a b => scoreDescLE a b) := by
      apply List.pairwise_of_forall_mem_list
      intro a ha b hb
      have ha' := (List.mem_filter.mp ha).2
      have hb' := (List.mem_filter.mp hb).2
      simp only [beq_iff_eq] at ha' hb'
      simp [scoreDescLE, ha', hb']
    have h4 : List.Sublist
        ((scoredCandidates normalizedQuery files).filter (fun x => x.score == s))
        ((scoredCandidates normalizedQuery files).mergeSort scoreDescLE) :=
      List.sublist_mergeSort scoreDescLE_trans scoreDescLE_total hpw (List.filter_sublist _)
    have h6 : List.Sublist
        ((scoredCandidates normalizedQuery files).filter (fun x => x.score == s))
        (((scoredCandidates normalizedQuery files).mergeSort scoreDescLE).filter
          (fun x => x.score == s)) := by
      have hidem : (((scoredCandidates normalizedQuery files).filter
          (fun x => x.score == s)).filter (fun x => x.score == s)) =
          (scoredCandidates normalizedQuery files).filter (fun x => x.score == s) := by
        simp
      rw [← hidem]
      exact h4.filter _
    have h7 : (((scoredCandidates normalizedQuery files).mergeSort scoreDescLE).filter
        (fun x => x.score == s)).length =
        ((scoredCandidates normalizedQuery files).filter (fun x => x.score == s)).length :=
      ((List.mergeSort_perm _ scoreDescLE).filter _).length_eq
    have h8 : ((scoredCandidates normalizedQuery files).filter (fun x => x.score == s)) =
        (((scoredCandidates normalizedQuery files).mergeSort scoreDescLE).filter
          (fun x => x.score == s)) :=
      h6.eq_of_length h7.symm
    rw [h8]
    exact (List.take_sublist 8 _).filter _

end SimplyprintSync
